import Mathlib

/-!
Verification of the `presto-lavalamp` simulation (`src/main.py`).

The program is a lava-lamp animation: a list of `Blob`s (position, radius,
velocity, temperature) is initialised under an area budget, advanced each
frame by `Blob.update`, split when oversized by `Blob.split`, and rendered
by sampling the metaball field `metaball_field` on the logical canvas grid,
framed by the chrome gradient bands of `draw_chrome`.

Embedding conventions:
  * Python floats are modelled as real numbers (`ℝ`); Python ints as `ℤ`.
  * Every call to `random.uniform` is modelled as an explicit input of the
    operation that performs it (an oracle value), constrained by hypotheses
    that mirror the distribution's support where a claim needs them.
  * In-place mutation of a blob becomes a function returning the new blob;
    `Blob.split` returns the mutated parent together with the optional child.
  * Drawing calls are modelled as the list of issued rectangles (`Rect`).
-/

namespace LavaLamp

/-- Screen dimensions (`SCREEN_WIDTH, SCREEN_HEIGHT = 480, 480`). -/
def SCREEN_WIDTH : ℤ := 480

def SCREEN_HEIGHT : ℤ := 480

/-- Lava column dimensions (`CANVAS_WIDTH, CANVAS_HEIGHT = 20, 70`). -/
def CANVAS_WIDTH : ℤ := 20

def CANVAS_HEIGHT : ℤ := 70

/-- Scale up to fit screen (`SCALE = 6`). -/
def SCALE : ℤ := 6

/-- `COLUMN_X = (SCREEN_WIDTH - CANVAS_WIDTH * SCALE) // 2` (Python floor division). -/
def COLUMN_X : ℤ := (SCREEN_WIDTH - CANVAS_WIDTH * SCALE).fdiv 2

/-- `COLUMN_Y = (SCREEN_HEIGHT - CANVAS_HEIGHT * SCALE) // 2`. -/
def COLUMN_Y : ℤ := (SCREEN_HEIGHT - CANVAS_HEIGHT * SCALE).fdiv 2

/-- `CHROME_HEIGHT = 10 * SCALE`. -/
def CHROME_HEIGHT : ℤ := 10 * SCALE

/-- `COLUMN_AREA = CANVAS_WIDTH * CANVAS_HEIGHT * SCALE**2` (a Python int). -/
def COLUMN_AREA : ℤ := CANVAS_WIDTH * CANVAS_HEIGHT * SCALE ^ 2

/-- `TOTAL_AREA = COLUMN_AREA * 0.05`: blobs occupy 5% of the column area. -/
noncomputable def TOTAL_AREA : ℝ := (COLUMN_AREA : ℝ) * 0.05

/-- `MAX_RADIUS = 15`. -/
def MAX_RADIUS : ℝ := 15

/-- `MIN_RADIUS = 5`. -/
def MIN_RADIUS : ℝ := 5

/-- `GRAVITY = 0.02`. -/
def GRAVITY : ℝ := 0.02

/-- `BUOYANCY = 0.05`. -/
def BUOYANCY : ℝ := 0.05

/-- `HEAT_ZONE = CANVAS_HEIGHT * 0.15`: bottom 15% of the column. -/
noncomputable def HEAT_ZONE : ℝ := (CANVAS_HEIGHT : ℝ) * 0.15

/-- `COOLING_RATE = 0.01`. -/
def COOLING_RATE : ℝ := 0.01

/-- `HEATING_RATE = 0.02`. -/
def HEATING_RATE : ℝ := 0.02

/-- The state of one blob: fields of `Blob.__init__` in source order. -/
structure Blob where
  x : ℝ
  y : ℝ
  r : ℝ
  dx : ℝ
  dy : ℝ
  temperature : ℝ

/-- `Blob(x, y, r)`: the constructor draws `dx ~ uniform(-0.5, 0.5)` and
`dy ~ uniform(-0.1, 0.1)`; both draws are explicit inputs here.
Temperature starts at `0.0`. -/
def mkBlob (x y r dx dy : ℝ) : Blob :=
  { x := x, y := y, r := r, dx := dx, dy := dy, temperature := 0 }

noncomputable section

/-- The first phase of `Blob.update` (src/main.py lines 68-87): gravity,
heat-zone heating / cooling, temperature clamp, buoyancy, and the position
integration `x += dx; y += dy`.  No boundary handling yet. -/
def Blob.integrate (b : Blob) : Blob :=
  let dy1 := b.dy + GRAVITY
  let p :=
    if b.y > (CANVAS_HEIGHT : ℝ) - HEAT_ZONE then
      (b.temperature + HEATING_RATE, dy1 - 0.05)
    else
      (b.temperature - COOLING_RATE, dy1)
  let temp2 := max 0.0 (min 1.0 p.1)
  let dy3 := p.2 - BUOYANCY * temp2 * 2
  { x := b.x + b.dx, y := b.y + dy3, r := b.r, dx := b.dx, dy := dy3,
    temperature := temp2 }

/-- `Blob.update` (src/main.py lines 68-99): `Blob.integrate` followed by the
boundary handling: negate `dx` when the horizontal extent crosses an edge,
and reset a blob whose (moved) extent lies entirely below the bottom
(`y = CANVAS_HEIGHT - r; dy = 0`) or entirely above the top
(`y = r; dy = 0`). -/
def Blob.update (b : Blob) : Blob :=
  let m := b.integrate
  let m1 :=
    if m.x - m.r < 0 ∨ m.x + m.r > (CANVAS_WIDTH : ℝ) then
      { m with dx := -m.dx }
    else m
  if m1.y - m1.r > (CANVAS_HEIGHT : ℝ) then
    { m1 with y := (CANVAS_HEIGHT : ℝ) - m1.r, dy := 0 }
  else if m1.y + m1.r < 0 then
    { m1 with y := m1.r, dy := 0 }
  else m1

/-- `Blob.area`: `math.pi * self.r**2`. -/
def Blob.area (b : Blob) : ℝ := Real.pi * b.r ^ 2

/-- The random draws one call to `Blob.split` can consume: the child's
position offsets `ox, oy ~ uniform(-child_radius, child_radius)` and the
child constructor's drift draws `cdx, cdy`. -/
structure SplitRand where
  ox : ℝ
  oy : ℝ
  cdx : ℝ
  cdy : ℝ

/-- `Blob.split` (src/main.py lines 104-115): if `r > MAX_RADIUS * 0.8`,
halve the blob's area, recompute its radius from the halved area, and return
a child of the same new radius at a random offset of the current position;
otherwise return no child and leave the blob unchanged. -/
def Blob.split (b : Blob) (s : SplitRand) : Blob × Option Blob :=
  if b.r > MAX_RADIUS * 0.8 then
    let child_area := b.area / 2
    let child_radius := Real.sqrt (child_area / Real.pi)
    ({ b with r := child_radius },
      some (mkBlob (b.x + s.ox) (b.y + s.oy) child_radius s.cdx s.cdy))
  else (b, none)

/-- `metaball_field(x, y, blobs)` (src/main.py lines 132-140): accumulate
`blob.r / (distance_squared + 1)` over the blobs, skipping any blob at
squared distance `0`. -/
def metaball_field (x y : ℝ) (bs : List Blob) : ℝ :=
  bs.foldl
    (fun value blob =>
      let dx := x - blob.x
      let dy := y - blob.y
      let distance_squared := dx * dx + dy * dy
      if distance_squared > 0 then value + blob.r / (distance_squared + 1)
      else value)
    0

/-- The random draws one iteration of the initialization loop consumes:
`rad ~ uniform(MIN_RADIUS, MIN_RADIUS + 2)`, the placement draws
`px ~ uniform(radius, CANVAS_WIDTH - radius)` and
`py ~ uniform(radius, CANVAS_HEIGHT - radius)`, and the constructor's
drift draws `pdx, pdy`. -/
structure InitRand where
  rad : ℝ
  px : ℝ
  py : ℝ
  pdx : ℝ
  pdy : ℝ

/-- The blob initialization loop (src/main.py lines 117-129):
`while remaining_area > 0`, draw a radius, shrink it to
`sqrt(remaining_area / pi)` when its area overshoots the remaining budget,
append the blob and subtract its area.  The random draws are supplied as a
list, one `InitRand` per iteration; `none` means the supplied list was
exhausted before the loop finished (the loop itself has an unbounded
supply). -/
def initBlobs : List InitRand → ℝ → Option (List Blob)
  | [], remaining => if remaining > 0 then none else some []
  | c :: rest, remaining =>
    if remaining > 0 then
      let radius :=
        if Real.pi * c.rad ^ 2 > remaining then Real.sqrt (remaining / Real.pi)
        else c.rad
      let blob_area := Real.pi * radius ^ 2
      (initBlobs rest (remaining - blob_area)).map
        (fun l => mkBlob c.px c.py radius c.pdx c.pdy :: l)
    else some []

/-- One filled rectangle issued to `display.rectangle`, together with the pen
colour (`r`, `g`, `b` channels) active when it was issued. -/
structure Rect where
  x : ℤ
  y : ℤ
  w : ℤ
  h : ℤ
  color : ℤ × ℤ × ℤ
deriving DecidableEq

end

/-- The chrome gradient colour triples (src/main.py lines 29-43). -/
def chrome_colors : List (ℤ × ℤ × ℤ) :=
  [(50, 50, 50), (75, 75, 75), (100, 100, 100), (125, 125, 125),
   (150, 150, 150), (175, 175, 175), (200, 200, 200), (175, 175, 175),
   (150, 150, 150), (125, 125, 125), (100, 100, 100), (75, 75, 75),
   (50, 50, 50)]

/-- `chrome_slice_width = CANVAS_WIDTH * SCALE // len(chrome_colors)`. -/
def chrome_slice_width : ℤ := (CANVAS_WIDTH * SCALE).fdiv chrome_colors.length

/-- `chrome_x = (SCREEN_WIDTH - CANVAS_WIDTH * SCALE) // 2`. -/
def chrome_x : ℤ := (SCREEN_WIDTH - CANVAS_WIDTH * SCALE).fdiv 2

/-- `draw_chrome()` (src/main.py lines 143-165): the rectangles issued, in
order — the top gradient band (one slice per chrome colour, at
`y = COLUMN_Y - CHROME_HEIGHT`), then the bottom band (at
`y = COLUMN_Y + CANVAS_HEIGHT * SCALE`). -/
def draw_chrome : List Rect :=
  (chrome_colors.enum.map fun p =>
    { x := chrome_x + p.1 * chrome_slice_width, y := COLUMN_Y - CHROME_HEIGHT,
      w := chrome_slice_width, h := CHROME_HEIGHT, color := p.2 })
  ++ (chrome_colors.enum.map fun p =>
    { x := chrome_x + p.1 * chrome_slice_width,
      y := COLUMN_Y + CANVAS_HEIGHT * SCALE,
      w := chrome_slice_width, h := CHROME_HEIGHT, color := p.2 })

noncomputable section

/-- One cell of the metaball raster loop (src/main.py lines 178-186): for
grid cell `(x, y)`, the rectangle drawn for it, if any.  A
`SCALE × SCALE` block at `(COLUMN_X + x * SCALE, COLUMN_Y + y * SCALE)` with
pen `(intensity, 105, 180)` is drawn exactly when the field value exceeds
`2.5`.  Python's `int()` truncates toward zero; on the values that reach it
here (`field_value * 50 > 125`) that is `Int.floor`. -/
def renderCell (bs : List Blob) (x y : ℤ) : Option Rect :=
  let field_value := metaball_field (x : ℝ) (y : ℝ) bs
  if field_value > 2.5 then
    let intensity : ℤ := min ⌊field_value * 50⌋ 255
    some { x := COLUMN_X + x * SCALE, y := COLUMN_Y + y * SCALE,
           w := SCALE, h := SCALE, color := (intensity, 105, 180) }
  else none

/-- The split pass over a list of blobs (src/main.py lines 193-197): each
blob is split in order, drawing its oracle values from the stream `offs`;
the result pairs each (possibly shrunk) parent with its optional child. -/
def splitPass : (ℕ → SplitRand) → List Blob → List (Blob × Option Blob)
  | _, [] => []
  | offs, b :: rest => b.split (offs 0) :: splitPass (fun i => offs (i + 1)) rest

/-- One iteration of the main loop's simulation part (src/main.py lines
188-198): update every blob in place, then split every blob, collecting the
children in `new_blobs`, and finally extend the blob list with the
children. -/
def stepBlobs (offs : ℕ → SplitRand) (bs : List Blob) : List Blob :=
  let pairs := splitPass offs (bs.map Blob.update)
  pairs.map Prod.fst ++ pairs.filterMap Prod.snd

/-- `n` iterations of the simulation part of the main loop; `offs n` is the
oracle stream used by step `n`. -/
def runSteps (offs : ℕ → ℕ → SplitRand) : ℕ → List Blob → List Blob
  | 0, bs => bs
  | n + 1, bs => stepBlobs (offs n) (runSteps offs n bs)

end

/-! ### Lemmas about `Blob.update` -/

theorem Blob.integrate_r (b : Blob) : b.integrate.r = b.r := rfl

theorem Blob.integrate_x (b : Blob) : b.integrate.x = b.x + b.dx := rfl

theorem Blob.update_r (b : Blob) : b.update.r = b.r := by
  unfold Blob.update
  dsimp only
  split_ifs <;> rfl

theorem Blob.update_x (b : Blob) : b.update.x = b.x + b.dx := by
  unfold Blob.update
  dsimp only
  split_ifs <;> rfl

theorem Blob.integrate_temperature (b : Blob) :
    b.integrate.temperature =
      max 0 (min 1 (if b.y > (CANVAS_HEIGHT : ℝ) - HEAT_ZONE
        then b.temperature + HEATING_RATE else b.temperature - COOLING_RATE)) := by
  unfold Blob.integrate
  split_ifs <;> norm_num

theorem Blob.update_temperature (b : Blob) :
    b.update.temperature = b.integrate.temperature := by
  unfold Blob.update
  dsimp only
  split_ifs <;> rfl

theorem Blob.update_temperature_mem (b : Blob) :
    0 ≤ b.update.temperature ∧ b.update.temperature ≤ 1 := by
  rw [Blob.update_temperature, Blob.integrate_temperature]
  constructor
  · exact le_max_left 0 _
  · exact max_le (by norm_num) (min_le_left 1 _)

/-! ### Lemmas about `Blob.split` -/

theorem Blob.split_not_fire (b : Blob) (s : SplitRand)
    (h : ¬ b.r > MAX_RADIUS * 0.8) : b.split s = (b, none) := by
  unfold Blob.split
  rw [if_neg h]

theorem Blob.split_child_radius (b : Blob) (s : SplitRand)
    (h : b.r > MAX_RADIUS * 0.8) :
    (b.split s).1.r = Real.sqrt (b.r ^ 2 / 2) ∧
      (b.split s).2 = some (mkBlob (b.x + s.ox) (b.y + s.oy)
        (Real.sqrt (b.r ^ 2 / 2)) s.cdx s.cdy) := by
  have hπ : Real.pi ≠ 0 := Real.pi_ne_zero
  have harg : Real.pi * b.r ^ 2 / 2 / Real.pi = b.r ^ 2 / 2 := by
    field_simp; ring
  unfold Blob.split
  rw [if_pos h]
  unfold Blob.area
  constructor <;> simp [harg]

theorem sqrt_half_sq_le (r : ℝ) (h0 : 0 ≤ r) : Real.sqrt (r ^ 2 / 2) ≤ r := by
  calc Real.sqrt (r ^ 2 / 2) ≤ Real.sqrt (r ^ 2) :=
        Real.sqrt_le_sqrt (by nlinarith)
    _ = r := Real.sqrt_sq h0

theorem Blob.split_fst_r_le (b : Blob) (s : SplitRand) :
    (b.split s).1.r ≤ b.r := by
  by_cases h : b.r > MAX_RADIUS * 0.8
  · rw [(b.split_child_radius s h).1]
    exact sqrt_half_sq_le b.r (by unfold MAX_RADIUS at h; nlinarith)
  · rw [b.split_not_fire s h]

theorem Blob.split_r_bounds (b : Blob) (s : SplitRand)
    (h0 : 0 < b.r) (h15 : b.r ≤ MAX_RADIUS) :
    (0 < (b.split s).1.r ∧ (b.split s).1.r ≤ MAX_RADIUS) ∧
      ∀ c, (b.split s).2 = some c → 0 < c.r ∧ c.r ≤ MAX_RADIUS := by
  by_cases h : b.r > MAX_RADIUS * 0.8
  · obtain ⟨h1, h2⟩ := b.split_child_radius s h
    have hpos : 0 < Real.sqrt (b.r ^ 2 / 2) :=
      Real.sqrt_pos.mpr (by nlinarith)
    have hle : Real.sqrt (b.r ^ 2 / 2) ≤ MAX_RADIUS :=
      le_trans (sqrt_half_sq_le b.r h0.le) h15
    refine ⟨⟨by rw [h1]; exact hpos, by rw [h1]; exact hle⟩, ?_⟩
    intro c hc
    rw [h2] at hc
    cases hc
    exact ⟨hpos, hle⟩
  · rw [b.split_not_fire s h]
    exact ⟨⟨h0, h15⟩, by intro c hc; cases hc⟩

/-! ### Lemmas about `metaball_field` -/

theorem metaball_foldl (x y : ℝ) :
    ∀ (bs : List Blob) (v : ℝ),
      List.foldl
        (fun value blob =>
          let dx := x - blob.x
          let dy := y - blob.y
          let distance_squared := dx * dx + dy * dy
          if distance_squared > 0 then value + blob.r / (distance_squared + 1)
          else value)
        v bs
      = v + (bs.map (fun blob =>
          if (x - blob.x) * (x - blob.x) + (y - blob.y) * (y - blob.y) > 0 then
            blob.r / ((x - blob.x) * (x - blob.x) + (y - blob.y) * (y - blob.y) + 1)
          else 0)).sum := by
  intro bs
  induction bs with
  | nil => intro v; simp
  | cons b rest ih =>
    intro v
    rw [List.foldl_cons, ih, List.map_cons, List.sum_cons]
    dsimp only
    split_ifs <;> ring

theorem metaball_field_eq_sum (x y : ℝ) (bs : List Blob) :
    metaball_field x y bs =
      (bs.map (fun blob =>
        if (x - blob.x) * (x - blob.x) + (y - blob.y) * (y - blob.y) > 0 then
          blob.r / ((x - blob.x) * (x - blob.x) + (y - blob.y) * (y - blob.y) + 1)
        else 0)).sum := by
  unfold metaball_field
  rw [metaball_foldl]
  ring

/-! ### Lemmas about the initialization loop -/

theorem initBlobs_sound :
    ∀ (rands : List InitRand) (remaining : ℝ) (bs : List Blob),
      (∀ c ∈ rands, MIN_RADIUS ≤ c.rad ∧ c.rad ≤ MIN_RADIUS + 2) →
      initBlobs rands remaining = some bs →
      (∀ b ∈ bs, 0 < b.r ∧ b.r ≤ MIN_RADIUS + 2) ∧
        (bs.map Blob.area).sum = max remaining 0 := by
  intro rands
  induction rands with
  | nil =>
    intro remaining bs _ h
    simp only [initBlobs] at h
    split_ifs at h with hrem
    obtain rfl : ([] : List Blob) = bs := Option.some.inj h
    push_neg at hrem
    exact ⟨by simp, by simp [max_eq_right hrem]⟩
  | cons c rest ih =>
    intro remaining bs hbound h
    obtain ⟨hc5, hc7⟩ := hbound c (List.mem_cons_self c rest)
    rw [MIN_RADIUS] at hc5 hc7
    norm_num at hc7
    have hrest : ∀ d ∈ rest, MIN_RADIUS ≤ d.rad ∧ d.rad ≤ MIN_RADIUS + 2 :=
      fun d hd => hbound d (List.mem_cons_of_mem c hd)
    simp only [initBlobs] at h
    split_ifs at h with hrem hshrink
    · -- remaining > 0, the drawn radius overshoots: the blob is shrunk
      have hzero : remaining - Real.pi * Real.sqrt (remaining / Real.pi) ^ 2 = 0 := by
        rw [Real.sq_sqrt (div_nonneg hrem.le Real.pi_pos.le)]
        field_simp
      rw [hzero] at h
      cases hrec : initBlobs rest 0 with
      | none => rw [hrec] at h; cases h
      | some l =>
        rw [hrec, Option.map_some'] at h
        obtain rfl := Option.some.inj h
        obtain ⟨hl, hsum⟩ := ih 0 l hrest hrec
        have hrpos : 0 < Real.sqrt (remaining / Real.pi) :=
          Real.sqrt_pos.mpr (div_pos hrem Real.pi_pos)
        have hrle : Real.sqrt (remaining / Real.pi) ≤ MIN_RADIUS + 2 := by
          rw [MIN_RADIUS]
          norm_num
          have h49x : Real.pi * c.rad ^ 2 ≤ Real.pi * 49 :=
            mul_le_mul_of_nonneg_left (by nlinarith) Real.pi_pos.le
          have h49 : remaining / Real.pi ≤ 49 := by
            rw [div_le_iff₀ Real.pi_pos]
            linarith
          calc Real.sqrt (remaining / Real.pi) ≤ Real.sqrt 49 :=
                Real.sqrt_le_sqrt h49
            _ = 7 := by
                rw [show (49 : ℝ) = 7 ^ 2 by norm_num, Real.sqrt_sq (by norm_num)]
        refine ⟨?_, ?_⟩
        · intro b hb
          rcases List.mem_cons.mp hb with rfl | hb
          · exact ⟨hrpos, hrle⟩
          · exact hl b hb
        · rw [List.map_cons, List.sum_cons, hsum]
          have harea : Blob.area (mkBlob c.px c.py (Real.sqrt (remaining / Real.pi)) c.pdx c.pdy)
              = Real.pi * Real.sqrt (remaining / Real.pi) ^ 2 := rfl
          rw [harea, Real.sq_sqrt (div_nonneg hrem.le Real.pi_pos.le)]
          rw [max_eq_left hrem.le, max_eq_left le_rfl]
          field_simp
    · -- remaining > 0, the drawn radius fits: it is kept as drawn
      push_neg at hshrink
      cases hrec : initBlobs rest (remaining - Real.pi * c.rad ^ 2) with
      | none => rw [hrec] at h; cases h
      | some l =>
        rw [hrec, Option.map_some'] at h
        obtain rfl := Option.some.inj h
        obtain ⟨hl, hsum⟩ := ih (remaining - Real.pi * c.rad ^ 2) l hrest hrec
        refine ⟨?_, ?_⟩
        · intro b hb
          rcases List.mem_cons.mp hb with rfl | hb
          · exact ⟨by simp only [mkBlob]; linarith,
              by simp only [mkBlob, MIN_RADIUS]; norm_num; linarith⟩
          · exact hl b hb
        · rw [List.map_cons, List.sum_cons, hsum]
          have harea : Blob.area (mkBlob c.px c.py c.rad c.pdx c.pdy)
              = Real.pi * c.rad ^ 2 := rfl
          rw [harea, max_eq_left (by linarith : (0:ℝ) ≤ remaining - Real.pi * c.rad ^ 2),
            max_eq_left hrem.le]
          ring
    · obtain rfl : ([] : List Blob) = bs := Option.some.inj h
      push_neg at hrem
      exact ⟨by simp, by simp [max_eq_right hrem]⟩

theorem initBlobs_total :
    ∀ (rands : List InitRand) (remaining : ℝ),
      (∀ c ∈ rands, MIN_RADIUS ≤ c.rad) →
      remaining ≤ Real.pi * MIN_RADIUS ^ 2 * rands.length →
      ∃ bs, initBlobs rands remaining = some bs := by
  intro rands
  induction rands with
  | nil =>
    intro remaining _ hlen
    simp only [List.length_nil, Nat.cast_zero, mul_zero] at hlen
    exact ⟨[], by simp only [initBlobs]; rw [if_neg (not_lt.mpr hlen)]⟩
  | cons c rest ih =>
    intro remaining hbound hlen
    by_cases hrem : remaining > 0
    · simp only [initBlobs]
      rw [if_pos hrem]
      by_cases hshrink : Real.pi * c.rad ^ 2 > remaining
      · rw [if_pos hshrink]
        have hzero : remaining - Real.pi * Real.sqrt (remaining / Real.pi) ^ 2 = 0 := by
          rw [Real.sq_sqrt (div_nonneg hrem.le Real.pi_pos.le)]
          field_simp
        rw [hzero]
        obtain ⟨l, hl⟩ := ih 0 (fun d hd => hbound d (List.mem_cons_of_mem c hd))
          (by positivity)
        exact ⟨_, by rw [hl, Option.map_some']⟩
      · rw [if_neg hshrink]
        push_neg at hshrink
        have hc5 : MIN_RADIUS ≤ c.rad := hbound c (List.mem_cons_self c rest)
        rw [MIN_RADIUS] at hc5
        have hbnd : remaining - Real.pi * c.rad ^ 2 ≤
            Real.pi * MIN_RADIUS ^ 2 * rest.length := by
          rw [MIN_RADIUS] at hlen ⊢
          simp only [List.length_cons, Nat.cast_add, Nat.cast_one] at hlen
          have h25 : Real.pi * 5 ^ 2 ≤ Real.pi * c.rad ^ 2 :=
            mul_le_mul_of_nonneg_left (by nlinarith) Real.pi_pos.le
          linarith
        obtain ⟨l, hl⟩ := ih (remaining - Real.pi * c.rad ^ 2)
          (fun d hd => hbound d (List.mem_cons_of_mem c hd)) hbnd
        exact ⟨_, by rw [hl, Option.map_some']⟩
    · exact ⟨[], by simp only [initBlobs]; rw [if_neg hrem]⟩

/-! ### Lemmas about the simulation step -/

theorem splitPass_length :
    ∀ (offs : ℕ → SplitRand) (bs : List Blob),
      (splitPass offs bs).length = bs.length := by
  intro offs bs
  induction bs generalizing offs with
  | nil => rfl
  | cons b rest ih => simp only [splitPass, List.length_cons, ih]

theorem mem_splitPass {p : Blob × Option Blob} :
    ∀ {offs : ℕ → SplitRand} {bs : List Blob},
      p ∈ splitPass offs bs → ∃ b ∈ bs, ∃ s, p = b.split s := by
  intro offs bs
  induction bs generalizing offs with
  | nil => intro h; cases h
  | cons b rest ih =>
    intro h
    rcases List.mem_cons.mp h with rfl | h
    · exact ⟨b, List.mem_cons_self b rest, offs 0, rfl⟩
    · obtain ⟨b0, hb0, s, hs⟩ := ih h
      exact ⟨b0, List.mem_cons_of_mem b hb0, s, hs⟩

theorem splitPass_small :
    ∀ (offs : ℕ → SplitRand) (bs : List Blob),
      (∀ b ∈ bs, ¬ b.r > MAX_RADIUS * 0.8) →
      splitPass offs bs = bs.map (fun b => (b, none)) := by
  intro offs bs
  induction bs generalizing offs with
  | nil => intro _; rfl
  | cons b rest ih =>
    intro h
    simp only [splitPass, List.map_cons]
    rw [Blob.split_not_fire b (offs 0) (h b (List.mem_cons_self b rest))]
    rw [ih _ (fun b hb => h b (List.mem_cons_of_mem _ hb))]

theorem stepBlobs_length_le (offs : ℕ → SplitRand) (bs : List Blob) :
    bs.length ≤ (stepBlobs offs bs).length := by
  unfold stepBlobs
  rw [List.length_append, List.length_map, splitPass_length, List.length_map]
  exact Nat.le_add_right _ _

theorem stepBlobs_small (offs : ℕ → SplitRand) (bs : List Blob)
    (h : ∀ b ∈ bs, b.r ≤ MIN_RADIUS + 2) :
    stepBlobs offs bs = bs.map Blob.update := by
  unfold stepBlobs
  show List.map Prod.fst (splitPass offs (List.map Blob.update bs)) ++
      List.filterMap Prod.snd (splitPass offs (List.map Blob.update bs)) =
    List.map Blob.update bs
  rw [splitPass_small]
  · rw [List.map_map, List.filterMap_map]
    change List.map (fun b => b) (List.map Blob.update bs) ++
        List.filterMap (fun _ => (none : Option Blob)) (List.map Blob.update bs) =
      List.map Blob.update bs
    rw [List.map_id', List.filterMap_eq_nil_iff.mpr fun a _ => rfl, List.append_nil]
  · intro b hb
    obtain ⟨b0, hb0, rfl⟩ := List.mem_map.mp hb
    rw [Blob.update_r, MAX_RADIUS]
    have h7 := h b0 hb0
    rw [MIN_RADIUS] at h7
    norm_num at h7 ⊢
    linarith

theorem stepBlobs_inv (offs : ℕ → SplitRand) (bs : List Blob)
    (h : ∀ b ∈ bs, 0 < b.r ∧ b.r ≤ MAX_RADIUS) :
    ∀ b ∈ stepBlobs offs bs, 0 < b.r ∧ b.r ≤ MAX_RADIUS := by
  intro b hb
  unfold stepBlobs at hb
  have radii : ∀ b1 ∈ bs.map Blob.update, 0 < b1.r ∧ b1.r ≤ MAX_RADIUS := by
    intro b1 hb1
    obtain ⟨b0, hb0, rfl⟩ := List.mem_map.mp hb1
    rw [Blob.update_r]
    exact h b0 hb0
  rcases List.mem_append.mp hb with hb | hb
  · obtain ⟨p, hp, rfl⟩ := List.mem_map.mp hb
    obtain ⟨b1, hb1, s, rfl⟩ := mem_splitPass hp
    obtain ⟨h0, h15⟩ := radii b1 hb1
    exact (Blob.split_r_bounds b1 s h0 h15).1
  · obtain ⟨p, hp, hps⟩ := List.mem_filterMap.mp hb
    obtain ⟨b1, hb1, s, rfl⟩ := mem_splitPass hp
    obtain ⟨h0, h15⟩ := radii b1 hb1
    exact (Blob.split_r_bounds b1 s h0 h15).2 b hps

theorem runSteps_inv (offs : ℕ → ℕ → SplitRand) (bs : List Blob)
    (h : ∀ b ∈ bs, 0 < b.r ∧ b.r ≤ MAX_RADIUS) (n : ℕ) :
    ∀ b ∈ runSteps offs n bs, 0 < b.r ∧ b.r ≤ MAX_RADIUS := by
  induction n with
  | zero => exact h
  | succ n ih => exact stepBlobs_inv (offs n) _ ih

theorem runSteps_small (offs : ℕ → ℕ → SplitRand) (bs : List Blob)
    (h : ∀ b ∈ bs, b.r ≤ MIN_RADIUS + 2) (n : ℕ) :
    (∀ b ∈ runSteps offs n bs, b.r ≤ MIN_RADIUS + 2) ∧
      (runSteps offs n bs).length = bs.length := by
  induction n with
  | zero => exact ⟨h, rfl⟩
  | succ n ih =>
    have hstep : runSteps offs (n + 1) bs = (runSteps offs n bs).map Blob.update :=
      stepBlobs_small (offs n) _ ih.1
    constructor
    · intro b hb
      rw [hstep] at hb
      obtain ⟨b0, hb0, rfl⟩ := List.mem_map.mp hb
      rw [Blob.update_r]
      exact ih.1 b0 hb0
    · rw [hstep, List.length_map]
      exact ih.2

theorem runSteps_length_mono (offs : ℕ → ℕ → SplitRand) (bs : List Blob) (n : ℕ) :
    (runSteps offs n bs).length ≤ (runSteps offs (n + 1) bs).length :=
  stepBlobs_length_le (offs n) _

theorem Blob.update_y_cases (b : Blob) :
    (b.integrate.y - b.r > (CANVAS_HEIGHT : ℝ) ∧
      b.update.y = (CANVAS_HEIGHT : ℝ) - b.r ∧ b.update.dy = 0) ∨
    (b.integrate.y - b.r ≤ (CANVAS_HEIGHT : ℝ) ∧ b.integrate.y + b.r < 0 ∧
      b.update.y = b.r ∧ b.update.dy = 0) ∨
    (b.integrate.y - b.r ≤ (CANVAS_HEIGHT : ℝ) ∧ 0 ≤ b.integrate.y + b.r ∧
      b.update.y = b.integrate.y ∧ b.update.dy = b.integrate.dy) := by
  unfold Blob.update
  dsimp only
  split_ifs with h1 h2 h3 h4 h5
  · exact Or.inl ⟨by simpa using h2, rfl, rfl⟩
  · exact Or.inr (Or.inl ⟨by simpa using not_lt.mp h2, by simpa using h3, rfl, rfl⟩)
  · exact Or.inr (Or.inr ⟨by simpa using not_lt.mp h2, by simpa using not_lt.mp h3, rfl, rfl⟩)
  · exact Or.inl ⟨by simpa using h4, rfl, rfl⟩
  · exact Or.inr (Or.inl ⟨by simpa using not_lt.mp h4, by simpa using h5, rfl, rfl⟩)
  · exact Or.inr (Or.inr ⟨by simpa using not_lt.mp h4, by simpa using not_lt.mp h5, rfl, rfl⟩)

/-! ### The claims -/

/-- C1: on a blob with `r > 0.8 * MAX_RADIUS`, `split()` halves the blob's
area exactly (real arithmetic; the claim's floating-point tolerance is the
exact equality here) and returns exactly one child whose area equals the
parent's post-call area, the child's centre offset from the parent's
position by at most the child radius in each axis (the offsets being drawn
from `uniform(-child_radius, child_radius)`); on a blob with
`r ≤ 0.8 * MAX_RADIUS` it returns no child and leaves the blob unmodified. -/
theorem C1_split_spec :
    (∀ (b : Blob) (s : SplitRand), b.r > MAX_RADIUS * 0.8 →
      |s.ox| ≤ (b.split s).1.r → |s.oy| ≤ (b.split s).1.r →
      ∃ child, (b.split s).2 = some child ∧
        (b.split s).1.area = b.area / 2 ∧
        child.area = (b.split s).1.area ∧
        |child.x - b.x| ≤ (b.split s).1.r ∧
        |child.y - b.y| ≤ (b.split s).1.r) ∧
    (∀ (b : Blob) (s : SplitRand), b.r ≤ MAX_RADIUS * 0.8 →
      b.split s = (b, none)) := by
  constructor
  · intro b s h hox hoy
    obtain ⟨h1, h2⟩ := b.split_child_radius s h
    refine ⟨_, h2, ?_, ?_, ?_, ?_⟩
    · unfold Blob.area
      rw [h1, Real.sq_sqrt (by positivity)]
      ring
    · unfold Blob.area
      rw [h1]
      rfl
    · show |b.x + s.ox - b.x| ≤ (b.split s).1.r
      rw [add_sub_cancel_left]
      exact hox
    · show |b.y + s.oy - b.y| ≤ (b.split s).1.r
      rw [add_sub_cancel_left]
      exact hoy
  · intro b s h
    exact b.split_not_fire s (not_lt.mpr h)

/-- C2 counterexample: the blob at `(10, 69.5)` with radius `5`, velocity
`(0, 1)` and temperature `0` lies within canvas bounds before the call, yet
after one `update()` its `y` exceeds `CANVAS_HEIGHT`: the boundary handling
repositions a blob only once its extent lies entirely outside, so the
position is not kept within the canvas bounds. -/
theorem C2_counterexample :
    (0 ≤ (⟨10, 69.5, 5, 0, 1, 0⟩ : Blob).x ∧
      (⟨10, 69.5, 5, 0, 1, 0⟩ : Blob).x ≤ (CANVAS_WIDTH : ℝ) ∧
      0 ≤ (⟨10, 69.5, 5, 0, 1, 0⟩ : Blob).y ∧
      (⟨10, 69.5, 5, 0, 1, 0⟩ : Blob).y ≤ (CANVAS_HEIGHT : ℝ)) ∧
    (Blob.update ⟨10, 69.5, 5, 0, 1, 0⟩).y > (CANVAS_HEIGHT : ℝ) := by
  unfold Blob.update Blob.integrate
  norm_num [CANVAS_HEIGHT, CANVAS_WIDTH, HEAT_ZONE, GRAVITY, BUOYANCY, HEATING_RATE,
    COOLING_RATE, min_def, max_def]

/-- C2 (amended): `update()` does not confine the position to the canvas
bounds; what the boundary handling does guarantee, for every blob of
nonnegative radius, is that `x` advances by exactly `dx` (horizontal edge
crossings only negate the velocity) and that the blob's vertical extent
still overlaps the canvas after the call (`y - r ≤ CANVAS_HEIGHT` and
`0 ≤ y + r`), because a blob is repositioned inside whenever its moved
extent lies entirely below the bottom or entirely above the top. -/
theorem C2_amended_overlap (b : Blob) (h : 0 ≤ b.r) :
    b.update.x = b.x + b.dx ∧
    b.update.y - b.update.r ≤ (CANVAS_HEIGHT : ℝ) ∧
    0 ≤ b.update.y + b.update.r := by
  have h70 : (0 : ℝ) ≤ (CANVAS_HEIGHT : ℝ) := by norm_num [CANVAS_HEIGHT]
  have hr := b.update_r
  rcases b.update_y_cases with ⟨_, hy, _⟩ | ⟨_, hlt, hy, _⟩ | ⟨hle, hge, hy, _⟩ <;>
    exact ⟨b.update_x, by rw [hr, hy]; linarith, by rw [hr, hy]; linarith⟩

/-- C2 witness: the amended statement holds at the blob of the
counterexample. -/
theorem C2_amended_overlap_witness :
    (Blob.update ⟨10, 69.5, 5, 0, 1, 0⟩).x = 10 + 0 ∧
    (Blob.update ⟨10, 69.5, 5, 0, 1, 0⟩).y - (Blob.update ⟨10, 69.5, 5, 0, 1, 0⟩).r ≤
      (CANVAS_HEIGHT : ℝ) ∧
    0 ≤ (Blob.update ⟨10, 69.5, 5, 0, 1, 0⟩).y + (Blob.update ⟨10, 69.5, 5, 0, 1, 0⟩).r :=
  C2_amended_overlap ⟨10, 69.5, 5, 0, 1, 0⟩ (by norm_num)

/-- C5 counterexample: two blobs whose vertical extent lies entirely below
the canvas before the call.  For the first (at rest), the bottom-exit branch
does fire, yet afterwards `y - r = CANVAS_HEIGHT - 2r ≠ CANVAS_HEIGHT` (the
code sets `y = CANVAS_HEIGHT - r`, i.e. `y + r = CANVAS_HEIGHT`).  For the
second (rising fast), the branch does not even fire — the condition is on
the position after the move — so `dy ≠ 0` and `y + r ≠ CANVAS_HEIGHT`. -/
theorem C5_counterexample :
    ((⟨10, 80, 5, 0, 0, 0⟩ : Blob).y - (⟨10, 80, 5, 0, 0, 0⟩ : Blob).r >
        (CANVAS_HEIGHT : ℝ) ∧
      (Blob.update ⟨10, 80, 5, 0, 0, 0⟩).y - (Blob.update ⟨10, 80, 5, 0, 0, 0⟩).r ≠
        (CANVAS_HEIGHT : ℝ)) ∧
    ((⟨10, 76, 5, 0, -2, 1⟩ : Blob).y - (⟨10, 76, 5, 0, -2, 1⟩ : Blob).r >
        (CANVAS_HEIGHT : ℝ) ∧
      (Blob.update ⟨10, 76, 5, 0, -2, 1⟩).dy ≠ 0 ∧
      (Blob.update ⟨10, 76, 5, 0, -2, 1⟩).y + (Blob.update ⟨10, 76, 5, 0, -2, 1⟩).r ≠
        (CANVAS_HEIGHT : ℝ)) := by
  unfold Blob.update Blob.integrate
  norm_num [CANVAS_HEIGHT, CANVAS_WIDTH, HEAT_ZONE, GRAVITY, BUOYANCY, HEATING_RATE,
    COOLING_RATE, min_def, max_def]

/-- C5 (amended): for every blob whose position after the velocity update
and position integration lies entirely below the canvas
(`y - r > CANVAS_HEIGHT` after the move — the condition under which the
bottom-exit branch fires), `update()` leaves the blob flush with the
bottom, `y + r = CANVAS_HEIGHT` (that is, `y = CANVAS_HEIGHT - r`), with
`dy = 0`. -/
theorem C5_amended_bottom_reset (b : Blob)
    (h : b.integrate.y - b.r > (CANVAS_HEIGHT : ℝ)) :
    b.update.y + b.update.r = (CANVAS_HEIGHT : ℝ) ∧ b.update.dy = 0 := by
  have hr := b.update_r
  rcases b.update_y_cases with ⟨_, hy, hdy⟩ | ⟨hle, _, _, _⟩ | ⟨hle, _, _, _⟩
  · exact ⟨by rw [hr, hy]; ring, hdy⟩
  · linarith
  · linarith

/-- C5 witness: the amended statement holds at the first blob of the
counterexample (its integrated position is entirely below the canvas). -/
theorem C5_amended_bottom_reset_witness :
    (Blob.update ⟨10, 80, 5, 0, 0, 0⟩).y + (Blob.update ⟨10, 80, 5, 0, 0, 0⟩).r =
      (CANVAS_HEIGHT : ℝ) ∧
    (Blob.update ⟨10, 80, 5, 0, 0, 0⟩).dy = 0 :=
  C5_amended_bottom_reset ⟨10, 80, 5, 0, 0, 0⟩ (by
    unfold Blob.integrate
    norm_num [CANVAS_HEIGHT, HEAT_ZONE, GRAVITY, BUOYANCY, HEATING_RATE,
      COOLING_RATE, min_def, max_def])

/-- C6: `metaball_field(x, y, blobs)` equals the sum over all blobs of
`r / (distance² + 1)`, `distance` being the Euclidean distance from
`(x, y)` to the blob's centre, except that a blob at distance exactly `0`
contributes nothing; in particular, a field of a single blob evaluated at
that blob's centre is `0`. -/
theorem C6_field_sum :
    (∀ (x y : ℝ) (bs : List Blob),
      metaball_field x y bs =
        (bs.map (fun b =>
          if Real.sqrt ((x - b.x) ^ 2 + (y - b.y) ^ 2) = 0 then 0
          else b.r / (Real.sqrt ((x - b.x) ^ 2 + (y - b.y) ^ 2) ^ 2 + 1))).sum) ∧
    (∀ b : Blob, metaball_field b.x b.y [b] = 0) := by
  constructor
  · intro x y bs
    rw [metaball_field_eq_sum]
    refine congrArg List.sum (List.map_congr_left fun b _ => ?_)
    have hnn : (0 : ℝ) ≤ (x - b.x) ^ 2 + (y - b.y) ^ 2 := by positivity
    have hsq : (x - b.x) * (x - b.x) + (y - b.y) * (y - b.y)
        = (x - b.x) ^ 2 + (y - b.y) ^ 2 := by ring
    by_cases hpos : (x - b.x) * (x - b.x) + (y - b.y) * (y - b.y) > 0
    · rw [if_pos hpos, if_neg, Real.sq_sqrt hnn, hsq]
      intro h0
      rw [Real.sqrt_eq_zero' ] at h0
      rw [← hsq] at h0
      linarith
    · rw [if_neg hpos, if_pos]
      rw [Real.sqrt_eq_zero' ]
      rw [← hsq]
      linarith [not_lt.mp hpos]
  · intro b
    simp [metaball_field]

/-- C10: `update()` leaves the radius unchanged, and the post-call
temperature lies in `[0, 1]` (it is clamped before being used). -/
theorem C10_update_radius_temperature (b : Blob) :
    b.update.r = b.r ∧ 0 ≤ b.update.temperature ∧ b.update.temperature ≤ 1 :=
  ⟨b.update_r, b.update_temperature_mem.1, b.update_temperature_mem.2⟩

/-! ### Demo inputs shared by the witnesses -/

/-- A concrete admissible stream of initialization draws: every iteration
draws radius `5` and places the blob at `(10, 35)` with zero drift. -/
def demoRands : List InitRand := (List.range 33).map fun _ => ⟨5, 10, 35, 0, 0⟩

def demoOffs : ℕ → ℕ → SplitRand := fun _ _ => ⟨0, 0, 0, 0⟩

theorem demoRands_bounds :
    ∀ c ∈ demoRands, MIN_RADIUS ≤ c.rad ∧ c.rad ≤ MIN_RADIUS + 2 := by
  intro c hc
  obtain ⟨i, _, rfl⟩ := List.mem_map.mp hc
  norm_num [MIN_RADIUS]

theorem total_area_le_budget :
    TOTAL_AREA ≤ Real.pi * MIN_RADIUS ^ 2 * (demoRands.length : ℕ) := by
  unfold TOTAL_AREA COLUMN_AREA CANVAS_WIDTH CANVAS_HEIGHT SCALE MIN_RADIUS demoRands
  simp only [List.length_map, List.length_range]
  norm_num
  nlinarith [Real.pi_gt_3141592]

theorem demoRands_init : ∃ bs, initBlobs demoRands TOTAL_AREA = some bs :=
  initBlobs_total demoRands TOTAL_AREA (fun c hc => (demoRands_bounds c hc).1)
    total_area_le_budget

/-- C3: with the configured constants, every blob created by the
initialization loop has radius at most `MIN_RADIUS + 2 = 7`; `update()`
never changes a radius and `split()` never increases one; therefore in
every state reachable by simulation steps every radius stays at most `7`,
strictly below the split threshold `0.8 * MAX_RADIUS = 12`, every call to
`split()` returns no child, and the blob count stays constant. -/
theorem C3_no_splits (rands : List InitRand) (bs : List Blob)
    (offs : ℕ → ℕ → SplitRand) (s : SplitRand) (n : ℕ)
    (hrad : ∀ c ∈ rands, MIN_RADIUS ≤ c.rad ∧ c.rad ≤ MIN_RADIUS + 2)
    (hinit : initBlobs rands TOTAL_AREA = some bs) :
    (∀ b ∈ bs, b.r ≤ MIN_RADIUS + 2) ∧
    (∀ b : Blob, b.update.r = b.r) ∧
    (∀ b : Blob, (b.split s).1.r ≤ b.r) ∧
    (∀ b ∈ runSteps offs n bs, b.r < MAX_RADIUS * 0.8 ∧ (b.split s).2 = none) ∧
    (runSteps offs n bs).length = bs.length := by
  obtain ⟨hprops, _⟩ := initBlobs_sound rands TOTAL_AREA bs hrad hinit
  have hsmall : ∀ b ∈ bs, b.r ≤ MIN_RADIUS + 2 := fun b hb => (hprops b hb).2
  obtain ⟨hrun, hlen⟩ := runSteps_small offs bs hsmall n
  refine ⟨hsmall, fun b => b.update_r, fun b => b.split_fst_r_le s, ?_, hlen⟩
  intro b hb
  have h7 := hrun b hb
  have hlt : b.r < MAX_RADIUS * 0.8 := by
    rw [MAX_RADIUS]
    rw [MIN_RADIUS] at h7
    norm_num at h7 ⊢
    linarith
  refine ⟨hlt, ?_⟩
  rw [b.split_not_fire s (not_lt.mpr hlt.le)]

/-- C3 witness: the invariant at a concrete admissible initialization and
1000 steps. -/
theorem C3_no_splits_witness :
    ∃ bs, initBlobs demoRands TOTAL_AREA = some bs ∧
      ((∀ b ∈ bs, b.r ≤ MIN_RADIUS + 2) ∧
       (∀ b : Blob, b.update.r = b.r) ∧
       (∀ b : Blob, (b.split ⟨0, 0, 0, 0⟩).1.r ≤ b.r) ∧
       (∀ b ∈ runSteps demoOffs 1000 bs,
         b.r < MAX_RADIUS * 0.8 ∧ (b.split ⟨0, 0, 0, 0⟩).2 = none) ∧
       (runSteps demoOffs 1000 bs).length = bs.length) := by
  obtain ⟨bs, hbs⟩ := demoRands_init
  exact ⟨bs, hbs,
    C3_no_splits demoRands bs demoOffs ⟨0, 0, 0, 0⟩ 1000 demoRands_bounds hbs⟩

/-- C4: starting from any initialized blob collection, across any number of
simulation steps the blob count never decreases (parents are kept and
children only appended), and every blob's radius satisfies
`0 < r ≤ MAX_RADIUS` at all times. -/
theorem C4_count_and_radius (rands : List InitRand) (bs : List Blob)
    (offs : ℕ → ℕ → SplitRand) (n : ℕ)
    (hrad : ∀ c ∈ rands, MIN_RADIUS ≤ c.rad ∧ c.rad ≤ MIN_RADIUS + 2)
    (hinit : initBlobs rands TOTAL_AREA = some bs) :
    (runSteps offs n bs).length ≤ (runSteps offs (n + 1) bs).length ∧
    ∀ b ∈ runSteps offs n bs, 0 < b.r ∧ b.r ≤ MAX_RADIUS := by
  obtain ⟨hprops, _⟩ := initBlobs_sound rands TOTAL_AREA bs hrad hinit
  have hinv : ∀ b ∈ bs, 0 < b.r ∧ b.r ≤ MAX_RADIUS := by
    intro b hb
    obtain ⟨h0, h7⟩ := hprops b hb
    refine ⟨h0, ?_⟩
    rw [MAX_RADIUS]
    rw [MIN_RADIUS] at h7
    norm_num at h7
    linarith
  exact ⟨runSteps_length_mono offs bs n, runSteps_inv offs bs hinv n⟩

/-- C4 witness: the invariant at a concrete admissible initialization, at
step 1000 of the spec's end-to-end scenario. -/
theorem C4_count_and_radius_witness :
    ∃ bs, initBlobs demoRands TOTAL_AREA = some bs ∧
      ((runSteps demoOffs 1000 bs).length ≤ (runSteps demoOffs 1001 bs).length ∧
       ∀ b ∈ runSteps demoOffs 1000 bs, 0 < b.r ∧ b.r ≤ MAX_RADIUS) := by
  obtain ⟨bs, hbs⟩ := demoRands_init
  exact ⟨bs, hbs,
    C4_count_and_radius demoRands bs demoOffs 1000 demoRands_bounds hbs⟩

/-- C7: the initialization loop terminates — for every admissible stream of
random draws some finite prefix completes it — and the resulting blobs'
total area equals the configured budget `TOTAL_AREA` exactly (in real
arithmetic): at most the budget, and strictly greater than the budget minus
the largest possible area `π (MIN_RADIUS + 2)²` of a single initial blob. -/
theorem C7_init_area_budget (stream : ℕ → InitRand)
    (h : ∀ i, MIN_RADIUS ≤ (stream i).rad ∧ (stream i).rad ≤ MIN_RADIUS + 2) :
    ∃ n bs, initBlobs ((List.range n).map stream) TOTAL_AREA = some bs ∧
      (bs.map Blob.area).sum = TOTAL_AREA ∧
      (bs.map Blob.area).sum ≤ TOTAL_AREA ∧
      TOTAL_AREA - Real.pi * (MIN_RADIUS + 2) ^ 2 < (bs.map Blob.area).sum := by
  have hbound : ∀ c ∈ (List.range 33).map stream,
      MIN_RADIUS ≤ c.rad ∧ c.rad ≤ MIN_RADIUS + 2 := by
    intro c hc
    obtain ⟨i, _, rfl⟩ := List.mem_map.mp hc
    exact h i
  obtain ⟨bs, hbs⟩ := initBlobs_total ((List.range 33).map stream) TOTAL_AREA
    (fun c hc => (hbound c hc).1)
    (by
      have := total_area_le_budget
      unfold demoRands at this
      simpa using this)
  obtain ⟨_, hsum⟩ := initBlobs_sound _ _ _ hbound hbs
  have hpos : (0 : ℝ) ≤ TOTAL_AREA := by
    unfold TOTAL_AREA COLUMN_AREA CANVAS_WIDTH CANVAS_HEIGHT SCALE
    norm_num
  rw [max_eq_left hpos] at hsum
  refine ⟨33, bs, hbs, hsum, le_of_eq hsum, ?_⟩
  rw [hsum]
  have hp : 0 < Real.pi * (MIN_RADIUS + 2) ^ 2 := by
    rw [MIN_RADIUS]
    positivity
  linarith

/-- C7 witness: the area budget at a concrete admissible stream. -/
theorem C7_init_area_budget_witness :
    ∃ n bs,
      initBlobs ((List.range n).map fun _ => (⟨5, 10, 35, 0, 0⟩ : InitRand))
        TOTAL_AREA = some bs ∧
      (bs.map Blob.area).sum = TOTAL_AREA ∧
      (bs.map Blob.area).sum ≤ TOTAL_AREA ∧
      TOTAL_AREA - Real.pi * (MIN_RADIUS + 2) ^ 2 < (bs.map Blob.area).sum :=
  C7_init_area_budget (fun _ => ⟨5, 10, 35, 0, 0⟩)
    (fun _ => by norm_num [MIN_RADIUS])

/-- C8 counterexample: for the single blob at `(0.5, 0)` with radius
`3.21`, cell `(0, 0)` has field value `2.568`; the emitted intensity is
`min(int(128.4), 255) = 128`, whereas the claim's formula
`min(value * 50, 255)` gives `128.4`: the claim omits the `int()`
truncation the code performs. -/
theorem C8_counterexample :
    renderCell [⟨1/2, 0, 321/100, 0, 0, 0⟩] 0 0 =
      some { x := COLUMN_X, y := COLUMN_Y, w := SCALE, h := SCALE,
             color := (128, 105, 180) } ∧
    (128 : ℝ) ≠
      min (metaball_field ((0 : ℤ) : ℝ) ((0 : ℤ) : ℝ)
        [⟨1/2, 0, 321/100, 0, 0, 0⟩] * 50) 255 := by
  have h1 : metaball_field ((0 : ℤ) : ℝ) ((0 : ℤ) : ℝ)
      [⟨1/2, 0, 321/100, 0, 0, 0⟩] = 321/125 := by
    unfold metaball_field
    norm_num
  have h2 : (⌊(321 : ℝ)/125 * 50⌋ : ℤ) = 128 := by
    rw [Int.floor_eq_iff]
    norm_num
  constructor
  · unfold renderCell
    rw [if_pos]
    · rw [h1, h2]
      decide
    · rw [h1]
      norm_num
  · rw [h1, min_eq_left (by norm_num : (321 : ℝ)/125 * 50 ≤ 255)]
    norm_num

/-- C8 (amended): for every cell `(x, y)` of the grid, a filled
`SCALE × SCALE` block at `(COLUMN_X + x * SCALE, COLUMN_Y + y * SCALE)` is
emitted iff `fieldValueAt(x, y) > 2.5`, and the emitted colour is
`(intensity, 105, 180)` with `intensity = min(⌊value * 50⌋, 255)` — the
code truncates `value * 50` to an integer before clamping; cells at or
below the threshold are left as background, and a field with zero blobs
paints no cell. -/
theorem C8_raster_amended (bs : List Blob) (x y : ℤ) :
    ((renderCell bs x y).isSome ↔ metaball_field (x : ℝ) (y : ℝ) bs > 2.5) ∧
    (∀ rect, renderCell bs x y = some rect →
      rect.x = COLUMN_X + x * SCALE ∧ rect.y = COLUMN_Y + y * SCALE ∧
      rect.w = SCALE ∧ rect.h = SCALE ∧
      rect.color = (min ⌊metaball_field (x : ℝ) (y : ℝ) bs * 50⌋ 255, 105, 180)) ∧
    renderCell [] x y = none := by
  refine ⟨?_, ?_, ?_⟩
  · unfold renderCell
    dsimp only
    split_ifs with hv
    · simpa using hv
    · simpa using hv
  · intro rect hrect
    unfold renderCell at hrect
    dsimp only at hrect
    split_ifs at hrect with hv
    obtain rfl := (Option.some.inj hrect).symm
    exact ⟨rfl, rfl, rfl, rfl, rfl⟩
  · unfold renderCell
    dsimp only
    rw [if_neg]
    show ¬ (List.foldl _ 0 [] > 2.5)
    norm_num

/-- C9 counterexample: each gradient band is `len(chrome_colors) = 13`
slices of width `120 // 13 = 9`, totalling `117` pixels — not the column's
scaled width `CANVAS_WIDTH * SCALE = 120`. -/
theorem C9_counterexample :
    ((draw_chrome.take chrome_colors.length).map Rect.w).sum = 117 ∧
    (117 : ℤ) ≠ CANVAS_WIDTH * SCALE := by
  decide

/-- C9 (amended): `draw_chrome` issues the two bands as `13` slices each of
equal width `⌊CANVAS_WIDTH * SCALE / 13⌋ = 9`, slice `i` at
`chrome_x + i * 9` with colours taken from the `ChromeGradient` sequence,
the top band at `COLUMN_Y - CHROME_HEIGHT` and the bottom band at
`COLUMN_Y + CANVAS_HEIGHT * SCALE` (immediately adjacent to the column's
edges); the combined width of a band is `117 = CANVAS_WIDTH * SCALE - 3`
pixels, which falls `3` pixels short of spanning the column's scaled
width exactly. -/
theorem C9_chrome_amended :
    chrome_colors.length = 13 ∧
    draw_chrome.length = 2 * chrome_colors.length ∧
    chrome_slice_width = (CANVAS_WIDTH * SCALE).fdiv 13 ∧
    (∀ rect ∈ draw_chrome, rect.w = chrome_slice_width ∧ rect.h = CHROME_HEIGHT ∧
      (rect.y = COLUMN_Y - CHROME_HEIGHT ∨ rect.y = COLUMN_Y + CANVAS_HEIGHT * SCALE)) ∧
    (∀ i : Fin 13,
      (draw_chrome[(i : ℕ)]?).map Rect.x =
        some (chrome_x + (i : ℕ) * chrome_slice_width) ∧
      (draw_chrome[(i : ℕ)]?).map Rect.y = some (COLUMN_Y - CHROME_HEIGHT) ∧
      (draw_chrome[(i : ℕ)]?).map Rect.color = chrome_colors[(i : ℕ)]? ∧
      (draw_chrome[(i : ℕ) + 13]?).map Rect.x =
        some (chrome_x + (i : ℕ) * chrome_slice_width) ∧
      (draw_chrome[(i : ℕ) + 13]?).map Rect.y =
        some (COLUMN_Y + CANVAS_HEIGHT * SCALE) ∧
      (draw_chrome[(i : ℕ) + 13]?).map Rect.color = chrome_colors[(i : ℕ)]?) ∧
    ((draw_chrome.take chrome_colors.length).map Rect.w).sum =
      CANVAS_WIDTH * SCALE - 3 ∧
    CANVAS_WIDTH * SCALE - 3 < CANVAS_WIDTH * SCALE := by
  decide

end LavaLamp
